import Mathlib

/-!
Verification of the heuristic field-extraction pipeline of `assignment.py`
(Curacel claims-QA take-home service).

The pipeline's pure core — `parse_text_to_structure` and the per-field
extractor functions it composes — is shallowly embedded here over
`List Char`.  Regular expressions from the source are transcribed as
hand-written matchers with Python `re` semantics (leftmost match,
alternation order, greedy quantifiers with the backtracking that the
concrete patterns can actually exercise, `\b` word boundaries).
Character classes (`\w`, `\s`, case mapping) are modelled on ASCII, which
coincides with Python's behaviour on the ASCII-plus-`₦` texts the service
handles.  Python floats arising in the amount extractor are modelled as
exact decimals (integer part plus fraction digits); `datetime.date.today()`
— the only ambient input of the pipeline — is made an explicit `PyDate`
parameter.  Operations that can raise in Python (`strptime`, `float`)
are embedded as `Option`-valued parsers, with the source's `try/except`
handlers modelled by the corresponding `Option` fallthroughs.
-/

namespace Assignment

/-- The space of characters Python `str.strip` / `str.split` treat as
whitespace (`\s` in `re`): space, tab, newline, carriage return,
vertical tab, form feed. -/
def isWS (c : Char) : Bool :=
  c = ' ' || c = '\t' || c = '\n' || c = '\r' || c = '\x0b' || c = '\x0c'

def isDigitC (c : Char) : Bool := 48 ≤ c.toNat && c.toNat ≤ 57

def isUpperC (c : Char) : Bool := 65 ≤ c.toNat && c.toNat ≤ 90

def isLowerC (c : Char) : Bool := 97 ≤ c.toNat && c.toNat ≤ 122

def isLetterC (c : Char) : Bool := isUpperC c || isLowerC c

/-- Embedding of `\w` of Python `re`, restricted to ASCII: letters, digits, underscore. -/
def isWordC (c : Char) : Bool := isLetterC c || isDigitC c || c = '_'

/-- ASCII lower-casing, as Python `str.lower` acts on ASCII letters. -/
def lowerC (c : Char) : Char :=
  if 65 ≤ c.toNat && c.toNat ≤ 90 then Char.ofNat (c.toNat + 32) else c

/-- ASCII upper-casing, as Python `str.upper` acts on ASCII letters. -/
def upperC (c : Char) : Char :=
  if 97 ≤ c.toNat && c.toNat ≤ 122 then Char.ofNat (c.toNat - 32) else c

def lowerL (s : List Char) : List Char := s.map lowerC

/-- The apostrophe character (present in several regex classes). -/
def quoteC : Char := Char.ofNat 39

/-- The backtick character (present in the procedure cleanup class). -/
def backqC : Char := Char.ofNat 96

/-- The naira currency sign `₦` (U+20A6). -/
def nairaC : Char := Char.ofNat 8358

/-- Python `str.strip` (left side). -/
def lstripL (s : List Char) : List Char := s.dropWhile isWS

/-- Python `str.rstrip`. -/
def rstripL (s : List Char) : List Char := (s.reverse.dropWhile isWS).reverse

/-- Python `str.strip`. -/
def stripL (s : List Char) : List Char := rstripL (lstripL s)

/-- Python `str.splitlines` restricted to `\n` separators: chunks between
newlines, with no trailing empty chunk when the text ends in a newline,
and `[]` for the empty text. -/
def splitLinesAux : List Char → List Char → List (List Char)
  | [], cur => if cur.isEmpty then [] else [cur.reverse]
  | c :: rest, cur =>
    if c = '\n' then cur.reverse :: splitLinesAux rest []
    else splitLinesAux rest (c :: cur)

def splitLines (s : List Char) : List (List Char) := splitLinesAux s []

/-- Python `str.split()` with no argument: maximal runs of
non-whitespace characters. -/
def splitWSAux : List Char → List Char → List (List Char)
  | [], cur => if cur.isEmpty then [] else [cur.reverse]
  | c :: rest, cur =>
    if isWS c then
      if cur.isEmpty then splitWSAux rest []
      else cur.reverse :: splitWSAux rest []
    else splitWSAux rest (c :: cur)

def splitWS (s : List Char) : List (List Char) := splitWSAux s []

/-- Python `str.capitalize` (ASCII): first character upper-cased, the
rest lower-cased. -/
def pyCapitalize : List Char → List Char
  | [] => []
  | c :: cs => upperC c :: cs.map lowerC

/-- Value of a digit string. -/
def natOfDigits (s : List Char) : Nat :=
  s.foldl (fun acc c => acc * 10 + (c.toNat - 48)) 0

/-- Decimal digit list of a natural number (used for `str(int)` and
thousand-separated formatting). -/
def digitsOf (n : Nat) : List Char :=
  (Nat.toDigits 10 n)

/-- Maximal run of characters satisfying `p` from the front:
`(run, rest)`. -/
def runOf (p : Char → Bool) : List Char → (List Char × List Char)
  | [] => ([], [])
  | c :: cs =>
    if p c then
      let (r, rest) := runOf p cs
      (c :: r, rest)
    else ([], c :: cs)

/-- Case-insensitive literal match at the front of `s`; returns the rest
after the literal on success. -/
def litCI : List Char → List Char → Option (List Char)
  | [], s => some s
  | _, [] => none
  | k :: ks, c :: cs => if lowerC c = lowerC k then litCI ks cs else none

/-- A `\b` boundary holds after a match whose last character is a word
character exactly when the next character is not a word character (or
the input ends); symmetrically when the last character is not a word
character.  `boundaryOk last next?` decides it. -/
def boundaryAfter (last : Char) : List Char → Bool
  | [] => isWordC last
  | c :: _ => isWordC last != isWordC c

/-- Does the case-insensitive keyword `kw` (first and last characters
word characters) occur at the front of `s` with a trailing `\b`?
`prevW` says whether the character before `s` was a word character
(the leading `\b`). -/
def wordAtFront (kw : List Char) (prevW : Bool) (s : List Char) : Bool :=
  if prevW then false
  else match litCI kw s with
    | none => false
    | some rest =>
      match kw.getLast? with
      | none => false
      | some last => boundaryAfter last rest

/-- Search for `\b(kw₁|kw₂|…)\b`, case-insensitive, anywhere in `s`.
Each keyword is a literal (possibly containing single spaces for the
multi-word vocabulary entries). -/
def containsWordFrom (kws : List (List Char)) : Bool → List Char → Bool
  | _, [] => false
  | prevW, c :: cs =>
    kws.any (fun kw => wordAtFront kw prevW (c :: cs)) ||
      containsWordFrom kws (isWordC c) cs

def containsWord (kws : List (List Char)) (s : List Char) : Bool :=
  containsWordFrom kws false s

/-- Substring occurrence (Python `in` on strings). -/
def containsSub (pat : List Char) : List Char → Bool
  | [] => (litCI pat []).isSome
  | c :: cs => (litCI pat (c :: cs)).isSome || containsSub pat cs

/-- Is `sub` a (case-sensitive) element of `s`?  Used for `':' in line`. -/
def containsChar (ch : Char) (s : List Char) : Bool := s.any (· = ch)

end Assignment

namespace Assignment

/-! ## Generic regex-style scanning helpers -/

/-- Scan `s` left to right, testing matcher `m` at every position with
the correct "previous character is a word character" flag (for leading
`\b` checks).  Returns whether any position matches. -/
def existsMatchFrom (m : Bool → List Char → Bool) : Bool → List Char → Bool
  | _, [] => false
  | prevW, c :: cs => m prevW (c :: cs) || existsMatchFrom m (isWordC c) cs

/-- Scan `s` left to right and return the rest of the input after the
leftmost match of `m` (the matcher returns the suffix after its match).
Models `re.sub(r'.*?PAT', '', s)` applied once. -/
def findEndFrom (m : Bool → List Char → Option (List Char)) :
    Bool → List Char → Option (List Char)
  | _, [] => none
  | prevW, c :: cs =>
    match m prevW (c :: cs) with
    | some rest => some rest
    | none => findEndFrom m (isWordC c) cs

/-- Scan `s` left to right and return `(before, matched-value, rest)` of
the leftmost match, where the matcher yields `(value, rest)`.
Models `re.search`. -/
def scanFirstFrom (m : Bool → List Char → Option (List Char × List Char)) :
    Bool → List Char → Option (List Char × List Char × List Char)
  | _, [] => none
  | prevW, c :: cs =>
    match m prevW (c :: cs) with
    | some (v, rest) => some ([], v, rest)
    | none =>
      match scanFirstFrom m (isWordC c) cs with
      | some (b, v, r) => some (c :: b, v, r)
      | none => none

/-- All non-overlapping leftmost matches of `m`, as `re.finditer`
collects them; fueled by the input length (each match consumes at least
one character). -/
def scanAllF (m : Bool → List Char → Option (List Char × List Char)) :
    Nat → Bool → List Char → List (List Char)
  | 0, _, _ => []
  | _ + 1, _, [] => []
  | f + 1, prevW, c :: cs =>
    match m prevW (c :: cs) with
    | some (v, rest) =>
      v :: scanAllF m f (isWordC ((v.getLast? ).getD c)) rest
    | none => scanAllF m f (isWordC c) cs

def scanAll (m : Bool → List Char → Option (List Char × List Char))
    (s : List Char) : List (List Char) :=
  scanAllF m s.length false s

/-- Replace every non-overlapping match of `m` by the empty string, as
`re.sub(PAT, '', s)`; scanning resumes right after each removed match,
with the boundary flag taken from the last matched character. -/
def removeMatchesF (m : Bool → List Char → Option (List Char × List Char)) :
    Nat → Bool → List Char → List Char
  | 0, _, s => s
  | _ + 1, _, [] => []
  | f + 1, prevW, c :: cs =>
    match m prevW (c :: cs) with
    | some (v, rest) =>
      removeMatchesF m f (isWordC ((v.getLast?).getD c)) rest
    | none => c :: removeMatchesF m f (isWordC c) cs

def removeMatches (m : Bool → List Char → Option (List Char × List Char))
    (s : List Char) : List Char :=
  removeMatchesF m s.length false s

/-! ## The Normalizer: `_clean_and_two_word_name` -/

/-- Matcher for one title of `\b(Mr|Mrs|Ms|Dr|Prof|Miss|Mx|Rev)\.?\b`:
alternation in source order, greedy optional dot (kept only when the
boundary after the dot holds, i.e. a word character follows). -/
def titleAt (prevW : Bool) (s : List Char) : Option (List Char × List Char) :=
  if prevW then none
  else
    (["mr", "mrs", "ms", "dr", "prof", "miss", "mx", "rev"].map
        String.data).findSome? fun kw =>
      match litCI kw s with
      | none => none
      | some rest =>
        match rest with
        | '.' :: r2 =>
          if boundaryAfter '.' r2 then some (kw ++ ['.'], r2)
          else if boundaryAfter (kw.getLast!) rest then some (kw, rest)
          else none
        | _ =>
          if boundaryAfter (kw.getLast!) rest then some (kw, rest) else none

/-- Matcher for `\b(w₁|w₂|…)\b` used with `re.sub`: alternation in the
given order, case-insensitive. -/
def plainWordAt (kws : List (List Char)) (prevW : Bool) (s : List Char) :
    Option (List Char × List Char) :=
  if prevW then false |> fun _ => none
  else
    kws.findSome? fun kw =>
      match litCI kw s with
      | none => none
      | some rest =>
        if boundaryAfter (kw.getLast!) rest then some (kw, rest) else none

def labelNounKws : List (List Char) :=
  ["patient", "member", "insured", "policyholder", "subscriber",
   "beneficiary", "name", "dob", "age", "address"].map String.data

def facilityNounKws : List (List Char) :=
  ["hospital", "clinic", "medical", "center", "centre", "facility",
   "ward", "department"].map String.data

/-- Characters kept by `re.sub(r'[^\w\s-]', '', …)`. -/
def keepPunct (c : Char) : Bool := isWordC c || isWS c || c = '-'

/-- Token filter `^[A-Za-z][A-Za-z'-]{0,}$` of the Normalizer. -/
def alphaTok : List Char → Bool
  | [] => false
  | c :: cs => isLetterC c && cs.all (fun d => isLetterC d || d = quoteC || d = '-')

/-- Embedding of `_clean_and_two_word_name` of the source: strip titles, label nouns
and facility nouns, strip punctuation except hyphen, keep the first two
alphabetic tokens capitalized, else `None`. -/
def clean_and_two_word_name (candidate : List Char) : Option (List Char) :=
  if candidate.isEmpty then none
  else
    let s1 := removeMatches titleAt candidate
    let s2 := removeMatches (plainWordAt labelNounKws) s1
    let s3 := removeMatches (plainWordAt facilityNounKws) s2
    let s4 := stripL (s3.filter keepPunct)
    let parts := splitWS s4
    let alphas := parts.filter alphaTok
    match alphas with
    | a :: b :: _ => some (pyCapitalize a ++ [' '] ++ pyCapitalize b)
    | _ => none

/-! ## PatientNameExtractor: `find_patient_name` -/

/-- The facility-header vocabulary used by the line filters:
`\b(hospital|clinic|medical center|centre|facility|ward|department)\b`. -/
def facilityLineKws : List (List Char) :=
  ["hospital", "clinic", "medical center", "centre", "facility",
   "ward", "department"].map String.data

/-- One alternative chain: literal, optional apostrophe-s / dot, `\s*`,
then "name" with trailing boundary; returns the rest after the match. -/
def thenWSName (r : List Char) : Option (List Char) :=
  let (_, r2) := runOf isWS r
  match litCI "name".data r2 with
  | some r3 => if boundaryAfter 'e' r3 then some r3 else none
  | none => none

/-- Matcher at one position for the patient-name label pattern
`patient(?:\'s)?\s*name | name\s+of\s+patient | pt\.?\s*name`
(the fourth source alternative `patient\s*name` is the first one with
the optional `'s` omitted). `checkLead` switches the leading `\b` on
(the search regex) or off (the `re.sub(r'.*?(…)\b', '', …)` form). -/
def patientLabelAt (checkLead : Bool) (prevW : Bool) (s : List Char) :
    Option (List Char) :=
  if checkLead && prevW then none
  else
    -- alt 1: patient(?:\'s)?\s*name
    (match litCI "patient".data s with
     | some r1 =>
       (match r1 with
        | q :: sCh :: r2 =>
          if q = quoteC && lowerC sCh = 's' then
            match thenWSName r2 with
            | some r => some r
            | none => thenWSName r1
          else thenWSName r1
        | _ => thenWSName r1)
     | none => none) <|>
    -- alt 2: name\s+of\s+patient
    (match litCI "name".data s with
     | some r1 =>
       let (w1, r2) := runOf isWS r1
       if w1.isEmpty then none
       else match litCI "of".data r2 with
         | some r3 =>
           let (w2, r4) := runOf isWS r3
           if w2.isEmpty then none
           else match litCI "patient".data r4 with
             | some r5 => if boundaryAfter 't' r5 then some r5 else none
             | none => none
         | none => none
     | none => none) <|>
    -- alt 3: pt\.?\s*name
    (match litCI "pt".data s with
     | some r1 =>
       (match r1 with
        | '.' :: r2 =>
          match thenWSName r2 with
          | some r => some r
          | none => thenWSName r1
        | _ => thenWSName r1)
     | none => none)

def patientLabelSearch (line : List Char) : Bool :=
  existsMatchFrom (fun pw s => (patientLabelAt true pw s).isSome) false line

/-- Embedding of `re.split(r':|-{2,}|\t', line, maxsplit=1)`: split at the first
colon, tab, or run of two-or-more hyphens. -/
def splitOnceAux : List Char → List Char → Option (List Char × List Char)
  | _, [] => none
  | acc, c :: cs =>
    if c = ':' || c = '\t' then some (acc.reverse, cs)
    else if c = '-' then
      match cs with
      | d :: ds =>
        if d = '-' then
          let (_, rest) := runOf (· = '-') ds
          some (acc.reverse, rest)
        else splitOnceAux (c :: acc) cs
      | [] => none
    else splitOnceAux (c :: acc) cs

def splitOnce (s : List Char) : Option (List Char × List Char) :=
  splitOnceAux [] s

/-- Embedding of `re.sub(r'.*?(patient…|name of patient|pt…name)\b', '', line)`:
repeatedly drop everything up to and including the leftmost label
occurrence. -/
def stripThroughPatientLabelF : Nat → List Char → List Char
  | 0, s => s
  | f + 1, s =>
    match findEndFrom (patientLabelAt false) false s with
    | some rest => stripThroughPatientLabelF f rest
    | none => s

def stripThroughPatientLabel (s : List Char) : List Char :=
  stripThroughPatientLabelF s.length s

def find_patient_name_lines : List (List Char) → Option (List Char)
  | [] => none
  | line :: rest =>
    let lc := stripL line
    if lc.isEmpty then find_patient_name_lines rest
    else if containsWord facilityLineKws lc then find_patient_name_lines rest
    else if patientLabelSearch lc then
      let candidate :=
        match splitOnce lc with
        | some (_, after) => stripL after
        | none => stripL (stripThroughPatientLabel lc)
      match clean_and_two_word_name candidate with
      | some name => some name
      | none => find_patient_name_lines rest
    else find_patient_name_lines rest

/-- Embedding of `find_patient_name` of the source. -/
def find_patient_name (text : String) : Option String :=
  (find_patient_name_lines (splitLines text.data)).map String.mk

end Assignment


namespace Assignment

/-! ## MemberNameExtractor: `find_member_name` -/

/-- Helper: `\s+` then a literal with a trailing `\b`. -/
def wsPlusLit (w : List Char) (lastC : Char) (r : List Char) : Option (List Char) :=
  let (ws, r2) := runOf isWS r
  if ws.isEmpty then none
  else match litCI w r2 with
    | some r3 => if boundaryAfter lastC r3 then some r3 else none
    | none => none

/-- Matcher at one position for
`\b(member(?:\'s)?\s*name|name\s+of\s+member|insured\s+name|policy\s*holder|policyholder|subscriber|beneficiary)\b`. -/
def memberLabelAt (prevW : Bool) (s : List Char) : Option (List Char) :=
  if prevW then none
  else
    -- member(?:\'s)?\s*name
    (match litCI "member".data s with
     | some r1 =>
       (match r1 with
        | q :: sCh :: r2 =>
          if q = quoteC && lowerC sCh = 's' then
            match thenWSName r2 with
            | some r => some r
            | none => thenWSName r1
          else thenWSName r1
        | _ => thenWSName r1)
     | none => none) <|>
    -- name\s+of\s+member
    (match litCI "name".data s with
     | some r1 =>
       match wsPlusLit "of".data 'f' r1 with
       | some r2 =>
         -- the boundary after "of" is vacuous before `\s+`; re-check ws+
         wsPlusLit "member".data 'r' r2
       | none => none
     | none => none) <|>
    -- insured\s+name
    (match litCI "insured".data s with
     | some r1 => wsPlusLit "name".data 'e' r1
     | none => none) <|>
    -- policy\s*holder (also covers the adjacent `policyholder` alternative)
    (match litCI "policy".data s with
     | some r1 =>
       let (_, r2) := runOf isWS r1
       match litCI "holder".data r2 with
       | some r3 => if boundaryAfter 'r' r3 then some r3 else none
       | none => none
     | none => none) <|>
    -- subscriber
    (match litCI "subscriber".data s with
     | some r1 => if boundaryAfter 'r' r1 then some r1 else none
     | none => none) <|>
    -- beneficiary
    (match litCI "beneficiary".data s with
     | some r1 => if boundaryAfter 'y' r1 then some r1 else none
     | none => none)

def memberLabelSearch (line : List Char) : Bool :=
  existsMatchFrom (fun pw s => (memberLabelAt pw s).isSome) false line

def memberContextKws : List (List Char) :=
  ["member", "insured", "policy", "subscriber", "beneficiary",
   "policy no", "policy #", "policy number"].map String.data

/-- Embedding of `re.match(r'^\s*name\s*[:\-]\s*(.+)$', line)`, returning the
group-1 remainder (the Python group may retain surrounding whitespace,
which every caller immediately strips; we return the stripped-left
form, equivalent after the caller's `.strip()`). -/
def genericNameMatch (line : List Char) : Option (List Char) :=
  let (_, r1) := runOf isWS line
  match litCI "name".data r1 with
  | some r2 =>
    let (_, r3) := runOf isWS r2
    match r3 with
    | c :: r4 =>
      if c = ':' || c = '-' then
        let (_, r5) := runOf isWS r4
        if r5.isEmpty then none else some r5
      else none
    | [] => none
  | none => none

/-- Matcher for one `\b([A-Z][a-z'-]{1,})\s+([A-Z][a-z'-]{1,})\b` span.
Returns (the `"G1 G2"` candidate string, rest after the span). -/
def lowNameC (c : Char) : Bool := isLowerC c || c = quoteC || c = '-'

/-- Greedy run with a trailing `\b`: shorten the (reversed) run from the
right until the boundary holds. -/
def trimBoundaryRev : List Char → List Char → Option (List Char × List Char)
  | [], _ => none
  | c :: revRun, rest =>
    if boundaryAfter c rest then some ((c :: revRun).reverse, rest)
    else trimBoundaryRev revRun (c :: rest)

def twoWordAt (prevW : Bool) (s : List Char) : Option (List Char × List Char) :=
  if prevW then none
  else match s with
    | c :: r =>
      if isUpperC c then
        let (run1, r1) := runOf lowNameC r
        if run1.isEmpty then none
        else
          let (ws, r2) := runOf isWS r1
          if ws.isEmpty then none
          else match r2 with
            | d :: r3 =>
              if isUpperC d then
                let (run2, r4) := runOf lowNameC r3
                match trimBoundaryRev run2.reverse r4 with
                | some (kept, rest) =>
                  some ((c :: run1) ++ ' ' :: d :: kept, rest)
                | none => none
              else none
            | [] => none
      else none
    | [] => none

def twoWordSpans (line : List Char) : List (List Char) :=
  scanAll twoWordAt line

/-- Truthiness-aware exclusion check:
`name and (not exclude_name or name.lower() != exclude_name.lower())`. -/
def exclOk (ex : Option (List Char)) (n : List Char) : Bool :=
  match ex with
  | none => true
  | some e => e.isEmpty || lowerL n ≠ lowerL e

def nextNonBlank (rest : List (List Char)) : Option (List Char) :=
  match rest.dropWhile (fun l => (stripL l).isEmpty) with
  | [] => none
  | l :: _ => some (stripL l)

/-- Tier 1: explicit member labels, same line or next non-blank line. -/
def memberTier1 (ex : Option (List Char)) : List (List Char) → Option (List Char)
  | [] => none
  | line :: rest =>
    let r :=
      if containsWord facilityLineKws line then none
      else if memberLabelSearch line then
        let cand :=
          match splitOnce line with
          | some (_, a) =>
            if (stripL a).isEmpty then nextNonBlank rest else some (stripL a)
          | none => nextNonBlank rest
        match cand with
        | some cS =>
          match clean_and_two_word_name cS with
          | some n => if exclOk ex n then some n else none
          | none => none
        | none => none
      else none
    match r with
    | some n => some n
    | none => memberTier1 ex rest

/-- Tier 2: member-context line containing a colon. -/
def memberTier2 (ex : Option (List Char)) : List (List Char) → Option (List Char)
  | [] => none
  | line :: rest =>
    let r :=
      if containsWord facilityLineKws line then none
      else if containsWord memberContextKws line && containsChar ':' line then
        match splitOnce line with
        | some (_, a) =>
          let cand := stripL a
          if cand.isEmpty then none
          else
            match clean_and_two_word_name cand with
            | some n => if exclOk ex n then some n else none
            | none => none
        | none => none
      else none
    match r with
    | some n => some n
    | none => memberTier2 ex rest

/-- Tier 3: a bare `Name:` line with member context on the previous or
next line. -/
def memberTier3 (ex : Option (List Char)) (prev : List Char) :
    List (List Char) → Option (List Char)
  | [] => none
  | line :: rest =>
    let r :=
      if containsWord facilityLineKws line then none
      else
        match genericNameMatch line with
        | some cand0 =>
          let nxt := match rest with | [] => [] | l :: _ => l
          if containsWord memberContextKws prev ||
              containsWord memberContextKws nxt then
            match clean_and_two_word_name (stripL cand0) with
            | some n => if exclOk ex n then some n else none
            | none => none
          else none
        | none => none
    match r with
    | some n => some n
    | none => memberTier3 ex line rest

structure Cand where
  prox : Nat
  idx : Nat
  name : List Char
deriving Repr, DecidableEq

/-- The facility filter applied to raw tier-4 candidates
(`\b(hospital|clinic|centre|clinic|medical)\b`, with `clinic` listed
twice in the source). -/
def tier4FacilityCandKws : List (List Char) :=
  ["hospital", "clinic", "centre", "clinic", "medical"].map String.data

/-- Embedding of `" ".join(xs)`. -/
def joinSpace : List (List Char) → List Char
  | [] => []
  | [l] => l
  | l :: ls => l ++ ' ' :: joinSpace ls

/-- Embedding of `" ".join(lines[max(0, i-2): min(len(lines), i+3)])`. -/
def windowJoin (lines : List (List Char)) (i : Nat) : List Char :=
  joinSpace ((lines.drop (i - 2)).take (min lines.length (i + 3) - (i - 2)))

def memberTier4Cands (ex : Option (List Char)) (lines : List (List Char)) :
    List Cand :=
  lines.enum.flatMap fun p =>
    if containsWord facilityLineKws p.2 then []
    else
      let prox :=
        if containsWord memberContextKws p.2 then 2
        else if containsWord memberContextKws (windowJoin lines p.1) then 1
        else 0
      (twoWordSpans p.2).filterMap fun cand =>
        match clean_and_two_word_name cand with
        | none => none
        | some cleaned =>
          if !exclOk ex cleaned then none
          else if containsWord tier4FacilityCandKws cand then none
          else some ⟨prox, p.1, cleaned⟩

/-- Ascending order in the sort key `(-proximity, line index)` of
`candidate_scores.sort(key=lambda x: (-x[0], x[1]))`. -/
def candKeyLe (a b : Cand) : Bool :=
  b.prox < a.prox || (a.prox = b.prox && a.idx ≤ b.idx)

/-- Stable insertion sort (Python `list.sort` is stable). -/
def candInsert (x : Cand) : List Cand → List Cand
  | [] => [x]
  | y :: ys => if candKeyLe x y then x :: y :: ys else y :: candInsert x ys

def candSort : List Cand → List Cand
  | [] => []
  | x :: xs => candInsert x (candSort xs)

def memberTier4 (ex : Option (List Char)) (lines : List (List Char)) :
    Option (List Char) :=
  ((candSort (memberTier4Cands ex lines)).head?).map Cand.name

def find_member_name_core (text : List Char) (ex : Option (List Char)) :
    Option (List Char) :=
  let lines := (splitLines text).map rstripL
  match memberTier1 ex lines with
  | some n => some n
  | none =>
    match memberTier2 ex lines with
    | some n => some n
    | none =>
      match memberTier3 ex [] lines with
      | some n => some n
      | none => memberTier4 ex lines

/-- Embedding of `find_member_name` of the source. -/
def find_member_name (text : String) (exclude_name : Option String) :
    Option String :=
  (find_member_name_core text.data (exclude_name.map String.data)).map String.mk

end Assignment


namespace Assignment

/-! ## AgeExtractor: `find_age` -/

/-- Generic leftmost-match scan returning the matcher's value. -/
def findSomeFrom {α : Type} (m : Bool → List Char → Option α) :
    Bool → List Char → Option α
  | _, [] => none
  | prevW, c :: cs =>
    match m prevW (c :: cs) with
    | some v => some v
    | none => findSomeFrom m (isWordC c) cs

def firstSomeLines {α : Type} (f : List Char → Option α) :
    List (List Char) → Option α
  | [] => none
  | l :: ls =>
    match f l with
    | some v => some v
    | none => firstSomeLines f ls

/-- Embedding of `age[:\s]*([0-9]{1,3})\b` at one position (no leading boundary in
the source pattern). -/
def agePat1At (_ : Bool) (s : List Char) : Option Nat :=
  match litCI "age".data s with
  | some r1 =>
    let (_, r2) := runOf (fun c => c = ':' || isWS c) r1
    let (d, r3) := runOf isDigitC r2
    if !d.isEmpty && d.length ≤ 3 && boundaryAfter (d.getLast!) r3 then
      some (natOfDigits d)
    else none
  | none => none

/-- Embedding of `([0-9]{1,3})\s*(?:years|yrs|y/o|yo)\b` at one position. -/
def agePat2At (_ : Bool) (s : List Char) : Option Nat :=
  let (d, r1) := runOf isDigitC s
  if d.isEmpty || 3 < d.length then none
  else
    let (_, r2) := runOf isWS r1
    let hit := (["years", "yrs", "y/o", "yo"].map String.data).any fun alt =>
      match litCI alt r2 with
      | some r3 => boundaryAfter (alt.getLast!) r3
      | none => false
    if hit then some (natOfDigits d) else none

def ageFromLine (line : List Char) : Option Nat :=
  if containsWord ["age".data] line then
    match findSomeFrom agePat1At false line with
    | some n => some n
    | none => findSomeFrom agePat2At false line
  else none

/-- Exactly `n` digits. -/
def takeExactDigits : Nat → List Char → Option (List Char × List Char)
  | 0, s => some ([], s)
  | n + 1, c :: cs =>
    if isDigitC c then
      match takeExactDigits n cs with
      | some (d, r) => some (c :: d, r)
      | none => none
    else none
  | _ + 1, [] => none

/-- Embedding of `\bDOB[:\s]*([0-9]{4}-[0-9]{2}-[0-9]{2})\b` at one position,
returning `(year, month, day)` digit values. -/
def dobAt (prevW : Bool) (s : List Char) : Option (Nat × Nat × Nat) :=
  if prevW then none
  else match litCI "dob".data s with
    | some r1 =>
      let (_, r2) := runOf (fun c => c = ':' || isWS c) r1
      match takeExactDigits 4 r2 with
      | some (y, '-' :: r3) =>
        match takeExactDigits 2 r3 with
        | some (mo, '-' :: r4) =>
          match takeExactDigits 2 r4 with
          | some (d, r5) =>
            if boundaryAfter (d.getLast!) r5 then
              some (natOfDigits y, natOfDigits mo, natOfDigits d)
            else none
          | _ => none
        | _ => none
      | _ => none
    | none => none

def isLeapYear (y : Nat) : Bool :=
  y % 4 = 0 && (y % 100 ≠ 0 || y % 400 = 0)

def daysInMonth (y m : Nat) : Nat :=
  if m = 2 then (if isLeapYear y then 29 else 28)
  else if m = 4 || m = 6 || m = 9 || m = 11 then 30
  else 31

/-- Validity as checked by `datetime.strptime(..., "%Y-%m-%d")`:
year at least 1, month 1–12, day within the month. -/
def validDate (y m d : Nat) : Bool :=
  1 ≤ y && 1 ≤ m && m ≤ 12 && 1 ≤ d && d ≤ daysInMonth y m

/-- The ambient `datetime.date.today()` value, made explicit. -/
structure PyDate where
  year : Nat
  month : Nat
  day : Nat
deriving Repr, DecidableEq

/-- Embedding of `today.year - dob.year - ((today.month, today.day) < (dob.month, dob.day))`. -/
def ageAsOf (today : PyDate) (y m d : Nat) : Int :=
  (today.year : Int) - (y : Int) -
    (if today.month < m || (today.month = m && today.day < d) then 1 else 0)

/-- Embedding of `find_age` of the source, with `date.today()` passed explicitly. -/
def find_age (today : PyDate) (text : String) : Option Int :=
  match firstSomeLines ageFromLine (splitLines text.data) with
  | some n => some (n : Int)
  | none =>
    match findSomeFrom dobAt false text.data with
    | some (y, m, d) =>
      if validDate y m d then some (ageAsOf today y m d) else none
    | none => none

/-! ## DiagnosisExtractor: `find_diagnoses` -/

def diagnosisKeywords : List String :=
  ["malaria", "typhoid", "diabetes", "hypertension", "asthma", "fracture",
   "bronchitis", "heart attack", "stroke", "infection", "allergy",
   "covid-19", "pneumonia", "arthritis"]

/-- Embedding of `find_diagnoses` of the source: substring hits against the fixed
vocabulary, capitalized, in vocabulary order. -/
def find_diagnoses (text : String) : List String :=
  let lower := lowerL text.data
  (diagnosisKeywords.filter fun k => containsSub k.data lower).map
    fun k => String.mk (pyCapitalize k.data)

end Assignment


namespace Assignment

/-! ## MedicationExtractor: `find_medications` -/

structure Med where
  name : String
  dosage : String
  quantity : String
deriving Repr, DecidableEq

/-- Descending list `[n, n-1, …, 1]` (for greedy counted quantifiers). -/
def descList (n : Nat) : List Nat :=
  (List.range n).reverse.map (· + 1)

/-- Embedding of `(\d{1,4}(?:\.\d+)?\s*(?:mg|g|ml|mcg|iu))` at one position:
greedy digit count with backtracking, greedy optional fraction, `\s*`,
unit alternation in source order.  Returns (matched span, rest). -/
def dosageAt (_ : Bool) (s : List Char) : Option (List Char × List Char) :=
  let (dRun, r1) := runOf isDigitC s
  if dRun.isEmpty then none
  else
    let unitTail (a : List Char) : Option (List Char × List Char) :=
      let (ws, a2) := runOf isWS a
      (["mg", "g", "ml", "mcg", "iu"].map String.data).findSome? fun alt =>
        match litCI alt a2 with
        | some rest => some (ws ++ a2.take alt.length, rest)
        | none => none
    (descList (min 4 dRun.length)).findSome? fun k =>
      let digits := dRun.take k
      let after := dRun.drop k ++ r1
      let noFrac : Option (List Char × List Char) :=
        match unitTail after with
        | some (u, rest) => some (digits ++ u, rest)
        | none => none
      match after with
      | '.' :: a2 =>
        let (f, a3) := runOf isDigitC a2
        if f.isEmpty then noFrac
        else
          match unitTail a3 with
          | some (u, rest) => some (digits ++ '.' :: f ++ u, rest)
          | none => noFrac
      | _ => noFrac

/-- The unit/route token pattern
`\b(tablets?|tabs?|capsules?|caps|sachets|bottles|vials|cream|ointment|patch|suppository|syrup|syp|ml)\b`
at one position.  Returns (matched token as in the source, rest). -/
def unitAt (prevW : Bool) (s : List Char) : Option (List Char × List Char) :=
  if prevW then none
  else
    let alts : List (String × Bool) :=
      [("tablet", true), ("tab", true), ("capsule", true), ("caps", false),
       ("sachets", false), ("bottles", false), ("vials", false),
       ("cream", false), ("ointment", false), ("patch", false),
       ("suppository", false), ("syrup", false), ("syp", false),
       ("ml", false)]
    alts.findSome? fun p =>
      match litCI p.1.data s with
      | some r1 =>
        let n := p.1.length
        if p.2 then
          match r1 with
          | c :: r2 =>
            if lowerC c = 's' && boundaryAfter c r2 then some (s.take (n + 1), r2)
            else if boundaryAfter (p.1.data.getLast!) r1 then some (s.take n, r1)
            else none
          | [] =>
            if boundaryAfter (p.1.data.getLast!) [] then some (s.take n, [])
            else none
        else if boundaryAfter (p.1.data.getLast!) r1 then some (s.take n, r1)
        else none
      | none => none

/-- The quick line filter vocabulary
`\b(mg|tablet|tab|capsule|ml|syrup|syp|cream|ointment|vial|bottle|suppository|injection)\b`. -/
def medFilterKws : List (List Char) :=
  ["mg", "tablet", "tab", "capsule", "ml", "syrup", "syp", "cream",
   "ointment", "vial", "bottle", "suppository", "injection"].map String.data

/-- Embedding of `re.sub(r'^\s*\d{3,}\s+', '', s)`: drop a leading numeric product
code. -/
def leadingCodeStrip (s : List Char) : List Char :=
  let (_, r1) := runOf isWS s
  let (d, r2) := runOf isDigitC r1
  if 3 ≤ d.length then
    let (w2, r3) := runOf isWS r2
    if w2.isEmpty then s else r3
  else s

/-- Embedding of `\b(\d{1,3})\b` at one position. -/
def smallNumAt (prevW : Bool) (s : List Char) : Option (List Char × List Char) :=
  if prevW then none
  else
    let (d, r) := runOf isDigitC s
    if !d.isEmpty && d.length ≤ 3 && boundaryAfter (d.getLast!) r then
      some (d, r)
    else none

/-- Embedding of `\b\d{4,}\b` at one position. -/
def bigNumAt (prevW : Bool) (s : List Char) : Option (List Char × List Char) :=
  if prevW then none
  else
    let (d, r) := runOf isDigitC s
    if 4 ≤ d.length && boundaryAfter (d.getLast!) r then some (d, r) else none

/-- Embedding of `re.search(r'\d+\s*' + re.escape(unit), line_proc, re.IGNORECASE)`:
a digit run, optional whitespace, then the unit literal. -/
def digitUnitAdjacent (unit : List Char) (lp : List Char) : Bool :=
  existsMatchFrom
    (fun _ s =>
      let (d, r) := runOf isDigitC s
      if d.isEmpty then false
      else
        let (_, r2) := runOf isWS r
        (litCI unit r2).isSome)
    false lp

/-- First `\b\d{1,3}\b` whose value is below 1000 (the threshold can
never fire on a three-digit match; it is transcribed from the source),
rendered through `str(int(…))`. -/
def fallbackQuantity (lp : List Char) : List Char :=
  match
    (scanAll smallNumAt lp).findSome? fun d =>
      let n := natOfDigits d
      if 1000 ≤ n then none else some (digitsOf n)
  with
  | some q => q
  | none => []

def isMedPunct (c : Char) : Bool :=
  c = '_' || c = '\t' || c = '|' || c = ':' || c = ',' || c = '(' ||
  c = ')' || c = '[' || c = ']' || c = '-' || c = '\\' || c = '/'

/-- Embedding of `re.sub(r'[_\t\|:,\(\)\[\]\-\\/]+', ' ', s)`. -/
def punctRunsToSpaceAux : Bool → List Char → List Char
  | _, [] => []
  | inRun, c :: cs =>
    if isMedPunct c then
      if inRun then punctRunsToSpaceAux true cs
      else ' ' :: punctRunsToSpaceAux true cs
    else c :: punctRunsToSpaceAux false cs

def punctRunsToSpace (s : List Char) : List Char := punctRunsToSpaceAux false s

/-- Embedding of `re.sub(r'\s+', ' ', s)`. -/
def wsCollapseAux : Bool → List Char → List Char
  | _, [] => []
  | inRun, c :: cs =>
    if isWS c then
      if inRun then wsCollapseAux true cs
      else ' ' :: wsCollapseAux true cs
    else c :: wsCollapseAux false cs

def wsCollapse (s : List Char) : List Char := wsCollapseAux false s

/-- The line-scan pass of `find_medications`, for one line: the
candidate entry before deduplication (`none` when the line is blank or
fails the quick filter). -/
def medLineEntry (line : List Char) : Option Med :=
  let lineOrig := stripL line
  if lineOrig.isEmpty then none
  else if !(containsWord medFilterKws lineOrig ||
      (findSomeFrom dosageAt false lineOrig).isSome) then none
  else
    let lp := leadingCodeStrip lineOrig
    let dosageM := findSomeFrom dosageAt false lp
    let dosage :=
      match dosageM with
      | some dm => (lowerL dm.1).filter (· ≠ ' ')
      | none => []
    let unitM := scanFirstFrom unitAt false lp
    let quantity :=
      match unitM with
      | some um =>
        let unit := lowerL um.2.1
        let afterUnit := stripL um.2.2
        match findSomeFrom smallNumAt false afterUnit with
        | some dm =>
          if !unit.isEmpty && !digitUnitAdjacent unit lp then
            dm.1 ++ ' ' :: unit
          else dm.1
        | none => fallbackQuantity lp
      | none => fallbackQuantity lp
    let nc1 := if dosageM.isSome then removeMatches dosageAt lp else lp
    let nc2 := if unitM.isSome then removeMatches unitAt nc1 else nc1
    let nc3 := removeMatches smallNumAt nc2
    let nc4 := removeMatches bigNumAt nc3
    let nc5 := punctRunsToSpace nc4
    let nc6 := stripL (wsCollapse nc5)
    let nc7 := stripL (leadingCodeStrip nc6)
    let name0 :=
      if nc7.isEmpty then [] else joinSpace ((splitWS nc7).map pyCapitalize)
    let name := if name0.isEmpty then lineOrig else name0
    some ⟨String.mk name, String.mk dosage, String.mk quantity⟩

/-- Non-overlapping leftmost matches for a boundary-free pattern. -/
def scanAllNoBF {α : Type} (m : List Char → Option (α × List Char)) :
    Nat → List Char → List α
  | 0, _ => []
  | _ + 1, [] => []
  | f + 1, c :: cs =>
    match m (c :: cs) with
    | some (v, rest) => v :: scanAllNoBF m f rest
    | none => scanAllNoBF m f cs

def scanAllNoB {α : Type} (m : List Char → Option (α × List Char))
    (s : List Char) : List α :=
  scanAllNoBF m s.length s

def g1Class (c : Char) : Bool := isLetterC c || c = ' ' || c = '-'

/-- The pattern-pass regex
`([A-Za-z][A-Za-z \-]{1,40})\s+(\d{1,4}\s*(?:mg|g|ml|mcg|iu))\s+(\d{1,3})\s*(tablets?|tabs|capsules?)`
at one position, with the greedy backtracking its pieces admit.
Returns ((group1, group2, group3, group4), rest). -/
def patMedAt (s : List Char) :
    Option ((List Char × List Char × List Char × List Char) × List Char) :=
  match s with
  | [] => none
  | c :: r =>
    if !isLetterC c then none
    else
      let (run, rAfter) := runOf g1Class r
      (descList (min run.length 40)).findSome? fun ext =>
        let g1 := c :: run.take ext
        let rem := run.drop ext ++ rAfter
        let (ws1, t1) := runOf isWS rem
        if ws1.isEmpty then none
        else
          let (dRun, t2) := runOf isDigitC t1
          if dRun.isEmpty then none
          else
            (descList (min 4 dRun.length)).findSome? fun k =>
              let g2d := dRun.take k
              let u0 := dRun.drop k ++ t2
              let (ws2, u1) := runOf isWS u0
              (["mg", "g", "ml", "mcg", "iu"].map String.data).findSome?
                fun alt =>
                match litCI alt u1 with
                | some u2 =>
                  let g2 := g2d ++ ws2 ++ u1.take alt.length
                  let (ws3, v1) := runOf isWS u2
                  if ws3.isEmpty then none
                  else
                    let (qRun, v2) := runOf isDigitC v1
                    if qRun.isEmpty then none
                    else
                      (descList (min 3 qRun.length)).findSome? fun k3 =>
                        let g3 := qRun.take k3
                        let w0 := qRun.drop k3 ++ v2
                        let (_, w1) := runOf isWS w0
                        let g4alts : List (String × Bool) :=
                          [("tablet", true), ("tabs", false),
                           ("capsule", true)]
                        g4alts.findSome? fun p =>
                          match litCI p.1.data w1 with
                          | some x1 =>
                            if p.2 then
                              match x1 with
                              | cc :: x2 =>
                                if lowerC cc = 's' then
                                  some ((g1, g2, g3,
                                    w1.take (p.1.length + 1)), x2)
                                else
                                  some ((g1, g2, g3,
                                    w1.take p.1.length), x1)
                              | [] =>
                                some ((g1, g2, g3, w1.take p.1.length), [])
                            else
                              some ((g1, g2, g3, w1.take p.1.length), x1)
                          | none => none
                | none => none

/-- A pattern-pass match rendered as a medication entry. -/
def patMedEntry (g : List Char × List Char × List Char × List Char) : Med :=
  ⟨String.mk (joinSpace ((splitWS g.1).map pyCapitalize)),
   String.mk ((lowerL g.2.1).filter (· ≠ ' ')),
   String.mk (g.2.2.1 ++ ' ' :: g.2.2.2)⟩

/-- The raw line-scan pass entries, in line order (before dedup). -/
def medLineRaw (text : List Char) : List Med :=
  (splitLines text).filterMap medLineEntry

/-- The raw pattern-pass entries, in match order (before dedup). -/
def medPatRaw (text : List Char) : List Med :=
  (scanAllNoB patMedAt text).map patMedEntry

/-- The deduplication identity key `(name.lower(), dosage, quantity)`. -/
def medKey (m : Med) : String × String × String :=
  (String.mk (lowerL m.name.data), m.dosage, m.quantity)

/-- First-occurrence deduplication by key; the source threads one
`seen` set through both passes, which is exactly this fold over the
concatenation of the two raw passes. -/
def dedupMedAux (seen : List (String × String × String)) :
    List Med → List Med
  | [] => []
  | x :: xs =>
    if medKey x ∈ seen then dedupMedAux seen xs
    else x :: dedupMedAux (medKey x :: seen) xs

/-- Embedding of `find_medications` of the source. -/
def find_medications (text : String) : List Med :=
  dedupMedAux [] (medLineRaw text.data ++ medPatRaw text.data)

end Assignment


namespace Assignment

/-! ## ProcedureExtractor: `find_procedures` -/

def procKws : List (List Char) :=
  ["test", "xray", "x-ray", "scan", "procedure", "operation", "surgery",
   "lab", "consultation", "nursing care", "medication"].map String.data

/-- Embedding of `re.search(r':\s*$', s)`: the line ends in a colon (plus optional
whitespace). -/
def endsWithColonWS (s : List Char) : Bool :=
  match s.reverse.dropWhile isWS with
  | c :: _ => c = ':'
  | [] => false

def procStripC (c : Char) : Bool :=
  isDigitC c || c = '-' || c = '/' || c = ':' || c = '.' || c = ','

def keepProcC (c : Char) : Bool :=
  isWordC c || isWS c || c = '-' || c = quoteC || c = backqC

/-- One line of `find_procedures` before deduplication. -/
def procLineEntry (line : List Char) : Option (List Char) :=
  let lc := stripL line
  if lc.isEmpty then none
  else if endsWithColonWS lc then none
  else if containsWord facilityLineKws lc then none
  else if !containsWord procKws lc then none
  else if lc.any isDigitC then
    let c1 := lc.map (fun c => if procStripC c then ' ' else c)
    let c2 := stripL (c1.filter keepProcC)
    let c3 := wsCollapse c2
    if endsWithColonWS c3 then none
    else if !c3.any isLetterC then none
    else if (splitWS c3).length < 2 then none
    else some c3
  else some lc

def dedupCIAux (seen : List (List Char)) : List (List Char) → List (List Char)
  | [] => []
  | x :: xs =>
    if lowerL x ∈ seen then dedupCIAux seen xs
    else x :: dedupCIAux (lowerL x :: seen) xs

/-- Embedding of `find_procedures` of the source. -/
def find_procedures (text : String) : List String :=
  (dedupCIAux [] ((splitLines text.data).filterMap procLineEntry)).map
    String.mk

/-! ## AdmissionExtractor: `find_admission` -/

def admKws : List (List Char) :=
  ["admit", "admitted", "admission", "discharge", "discharged"].map
    String.data

def admitKws : List (List Char) :=
  ["admit", "admitted", "admission"].map String.data

def dischargeKws : List (List Char) :=
  ["discharge", "discharged"].map String.data

/-- The textual `\d{1,2}\s[A-Za-z]{3,9}\s\d{4}` date alternative. -/
def textualDateAt (s : List Char) : Option (List Char × List Char) :=
  let (dRun, r0) := runOf isDigitC s
  if dRun.isEmpty then none
  else
    (descList (min 2 dRun.length)).findSome? fun k =>
      let d := dRun.take k
      match dRun.drop k ++ r0 with
      | w :: r1 =>
        if isWS w then
          let (letters, r2) := runOf isLetterC r1
          if 3 ≤ letters.length && letters.length ≤ 9 then
            match r2 with
            | w2 :: r3 =>
              if isWS w2 then
                match takeExactDigits 4 r3 with
                | some (y, r4) =>
                  some (d ++ w :: letters ++ w2 :: y, r4)
                | none => none
              else none
            | [] => none
          else none
        else none
      | [] => none

/-- Embedding of `DATE_REGEX`:
`(\d{4}-\d{2}-\d{2}|\d{2}/\d{2}/\d{4}|\d{1,2}\s[A-Za-z]{3,9}\s\d{4})`
at one position. -/
def dateAt (s : List Char) : Option (List Char × List Char) :=
  (match takeExactDigits 4 s with
   | some (y, '-' :: r1) =>
     (match takeExactDigits 2 r1 with
      | some (mo, '-' :: r2) =>
        (match takeExactDigits 2 r2 with
         | some (d, r3) => some (y ++ '-' :: mo ++ '-' :: d, r3)
         | none => none)
      | _ => none)
   | _ => none) <|>
  (match takeExactDigits 2 s with
   | some (d, '/' :: r1) =>
     (match takeExactDigits 2 r1 with
      | some (mo, '/' :: r2) =>
        (match takeExactDigits 4 r2 with
         | some (y, r3) => some (d ++ '/' :: mo ++ '/' :: y, r3)
         | none => none)
      | _ => none)
   | _ => none) <|>
  textualDateAt s

structure AdmissionInfo where
  was_admitted : Bool
  admission_date : Option String
  discharge_date : Option String
deriving Repr, DecidableEq

/-- The per-line state update of `find_admission`'s scan. -/
def admStep (st : Bool × Option (List Char) × Option (List Char))
    (line : List Char) : Bool × Option (List Char) × Option (List Char) :=
  if containsWord admKws line then
    let wa := st.1 || containsWord admitKws line
    let dates := scanAllNoB dateAt line
    match dates with
    | [] => (wa, st.2.1, st.2.2)
    | d0 :: _ =>
      if st.2.1.isNone then (wa, some d0, st.2.2)
      else if st.2.2.isNone && 1 < dates.length then (wa, st.2.1, dates[1]?)
      else (wa, st.2.1, st.2.2)
  else st

/-- Embedding of `find_admission` of the source. -/
def find_admission (text : String) : AdmissionInfo :=
  let st := (splitLines text.data).foldl admStep (false, none, none)
  let wa := st.1 || containsWord dischargeKws text.data
  ⟨wa, st.2.1.map String.mk, st.2.2.map String.mk⟩

end Assignment


namespace Assignment

/-! ## AmountExtractor: `find_total_amount` -/

/-- The `LABELS` alternation: (first word, whether the gap is `\s+`
rather than `\s*`, second-word alternatives), in source order; the
optional `ing` of `bill(?:ing)?` is expanded greedily. -/
def amountLabelAlts : List (String × Bool × List String) :=
  [("net", true, ["amount", "value", "total", "payable", "amt"]),
   ("total", true, ["amount", "value", "payable", "due", "bill"]),
   ("final", true, ["amount", "total", "payment", "value"]),
   ("grand", true, ["total"]),
   ("billing", true, ["amount", "total"]),
   ("bill", true, ["amount", "total"]),
   ("invoice", true, ["amount", "total", "value"]),
   ("amount", true, ["due", "payable"]),
   ("balance", true, ["due", "payable"]),
   ("sub", false, ["total"]),
   ("net", true, ["value"]),
   ("net", true, ["amt"]),
   ("payable", true, ["amount"])]

def amountLabelAt (prevW : Bool) (s : List Char) : Bool :=
  if prevW then false
  else
    amountLabelAlts.any fun t =>
      match litCI t.1.data s with
      | some r1 =>
        let (ws, r2) := runOf isWS r1
        (!t.2.1 || !ws.isEmpty) &&
          t.2.2.any fun w2 =>
            match litCI w2.data r2 with
            | some r3 => boundaryAfter (w2.data.getLast!) r3
            | none => false
      | none => false

def amountLabelSearch (line : List Char) : Bool :=
  existsMatchFrom amountLabelAt false line

def amtClass (c : Char) : Bool := isDigitC c || c = ','

/-- Embedding of `\s?[\d,]+(?:\.\d+)?` (the part after a `₦`/`NGN` marker):
returns (consumed characters, rest). -/
def afterCurrency (r : List Char) : Option (List Char × List Char) :=
  let core (q : List Char) (lead : List Char) :
      Option (List Char × List Char) :=
    let (run, r1) := runOf amtClass q
    if run.isEmpty then none
    else
      match r1 with
      | '.' :: t =>
        let (f, r2) := runOf isDigitC t
        if f.isEmpty then some (lead ++ run, r1)
        else some (lead ++ run ++ '.' :: f, r2)
      | _ => some (lead ++ run, r1)
  match r with
  | c :: cs => if isWS c then core cs [c] else core r []
  | [] => none

/-- Embedding of `AMOUNT_CAPTURE_RE` at one position:
`(₦\s?[\d,]+(?:\.\d+)?|NGN\s?[\d,]+(?:\.\d+)?|[\d,]+\.\d+|[\d,]+(?:\b))`. -/
def amountCaptureAt (_ : Bool) (s : List Char) :
    Option (List Char × List Char) :=
  (match s with
   | c :: r =>
     if c = nairaC then
       (afterCurrency r).map fun p => (c :: p.1, p.2)
     else none
   | [] => none) <|>
  (match litCI "NGN".data s with
   | some r => (afterCurrency r).map fun p => (s.take 3 ++ p.1, p.2)
   | none => none) <|>
  (let (run, r1) := runOf amtClass s
   if run.isEmpty then none
   else
     match r1 with
     | '.' :: t =>
       let (f, r2) := runOf isDigitC t
       if f.isEmpty then none else some (run ++ '.' :: f, r2)
     | _ => none) <|>
  (let (run, r1) := runOf amtClass s
   if run.isEmpty then none
   else
     match trimBoundaryRev run.reverse r1 with
     | some (kept, rest) => some (kept, rest)
     | none => none)

/-- Embedding of `AMOUNT_ONLY_LINE_RE`: the whole line (up to surrounding
whitespace) is a single currency/number value. -/
def amountOnlyCore : List Char → Option (List Char)
  | [] => none
  | c :: r =>
    if c = nairaC then (afterCurrency r).map (·.2)
    else
      match litCI "NGN".data (c :: r) with
      | some r2 => (afterCurrency r2).map (·.2)
      | none =>
        let (run, r1) := runOf amtClass (c :: r)
        if run.isEmpty then none
        else
          match r1 with
          | '.' :: t =>
            let (f, r2) := runOf isDigitC t
            if f.isEmpty then some r1 else some r2
          | _ => some r1

def amountOnlyLine (line : List Char) : Bool :=
  match amountOnlyCore (stripL line) with
  | some rest => rest.isEmpty
  | none => false

/-- A Python float arising from `parse_number`, as an exact decimal:
integer part and fraction digits. -/
structure DecimalVal where
  ip : Nat
  frac : List Char
deriving Repr, DecidableEq

def numV (d : DecimalVal) : Nat :=
  d.ip * 10 ^ d.frac.length + natOfDigits d.frac

def denV (d : DecimalVal) : Nat := 10 ^ d.frac.length

def dIsInteger (d : DecimalVal) : Bool := natOfDigits d.frac = 0

def dIsZero (d : DecimalVal) : Bool := numV d = 0

/-- Strict numeric comparison of two decimal values. -/
def dGt (a b : DecimalVal) : Bool := numV b * denV a < numV a * denV b

/-- Embedding of `parse_number` of the source: strip, drop every character that is
not a digit or a dot, then parse as a float (`None` on failure). -/
def parse_number (s : List Char) : Option DecimalVal :=
  let t := (stripL s).filter fun c => isDigitC c || c = '.'
  if t.isEmpty then none
  else
    let (intD, r) := runOf isDigitC t
    match r with
    | [] => some ⟨natOfDigits intD, []⟩
    | '.' :: t2 =>
      let (f, r2) := runOf isDigitC t2
      if r2.isEmpty then
        if intD.isEmpty && f.isEmpty then none
        else some ⟨natOfDigits intD, f⟩
      else none
    | _ => none

/-- Thousands-separated rendering of a natural number (`f"{n:,}"`). -/
def commaRevAux : Nat → List Char → List Char
  | _, [] => []
  | k, c :: cs =>
    if k = 3 then ',' :: c :: commaRevAux 1 cs
    else c :: commaRevAux (k + 1) cs

def commaFormat (n : Nat) : List Char :=
  (commaRevAux 0 (digitsOf n).reverse).reverse

def stripTrailingZeros (f : List Char) : List Char :=
  (f.reverse.dropWhile (· = '0')).reverse

/-- Embedding of `f"₦{num:,}"` for a non-integral float (thousand-separated integer
part, shortest fraction). -/
def nairaDecimalFormat (d : DecimalVal) : List Char :=
  nairaC :: commaFormat d.ip ++ '.' :: stripTrailingZeros d.frac

/-- The tier-1/2 normalisation:
`f"₦{int(num):,}" if num and num.is_integer() else f"₦{num:,}" if num else val`,
guarded by `NGN` appearing in the value and the value not already
starting with `₦`. -/
def normalizeNGN (val : List Char) : List Char :=
  if containsWord ["ngn".data] val && !(val.head? = some nairaC) then
    match parse_number val with
    | some d =>
      if !dIsZero d && dIsInteger d then nairaC :: commaFormat d.ip
      else if !dIsZero d then nairaDecimalFormat d
      else val
    | none => val
  else val

def totalishKws : List (List Char) :=
  ["sum", "subtotal", "total", "net", "amount", "payable", "due",
   "grand"].map String.data

/-- Tier 1: labelled line, amount on the same line or on the next
(non-blank) amount-only line. -/
def amtTier1 : List (List Char) → Option (List Char)
  | [] => none
  | line :: rest =>
    let r :=
      if containsWord facilityLineKws line then none
      else if amountLabelSearch line then
        match findSomeFrom amountCaptureAt false line with
        | some m => some (normalizeNGN (stripL m.1))
        | none =>
          match rest.dropWhile (fun l => (stripL l).isEmpty) with
          | l :: _ =>
            if amountOnlyLine l then
              match findSomeFrom amountCaptureAt false l with
              | some m2 => some (normalizeNGN (stripL m2.1))
              | none => none
            else none
          | [] => none
      else none
    match r with
    | some v => some v
    | none => amtTier1 rest

/-- Tier 2: an amount-only line whose previous line carries a
total-ish word. -/
def amtTier2 (prev : List Char) : List (List Char) → Option (List Char)
  | [] => none
  | line :: rest =>
    let r :=
      if amountOnlyLine line && containsWord totalishKws prev then
        match findSomeFrom amountCaptureAt false line with
        | some m => some (normalizeNGN (stripL m.1))
        | none => none
      else none
    match r with
    | some v => some v
    | none => amtTier2 line rest

/-- Tier 4 candidate tokens: every parsable capture on every
non-facility line, in document order. -/
def amtCandidates (lines : List (List Char)) : List (DecimalVal × List Char) :=
  lines.flatMap fun line =>
    if containsWord facilityLineKws line then []
    else
      (scanAll amountCaptureAt line).filterMap fun tok =>
        match parse_number (stripL tok) with
        | some d => some (d, stripL tok)
        | none => none

/-- Head of the stable descending sort by numeric value: the earliest
candidate holding the maximum. -/
def pickMaxCand : List (DecimalVal × List Char) →
    Option (DecimalVal × List Char)
  | [] => none
  | x :: xs => some (xs.foldl (fun acc y => if dGt y.1 acc.1 then y else acc) x)

def amtTier4 (textAll : List Char) (lines : List (List Char)) :
    Option (List Char) :=
  match pickMaxCand (amtCandidates lines) with
  | some p =>
    if containsWord ["ngn".data] textAll && !(p.2.head? = some nairaC) then
      some (if dIsInteger p.1 then nairaC :: commaFormat p.1.ip
            else nairaDecimalFormat p.1)
    else some p.2
  | none => none

/-- The non-blank, right-stripped lines scanned by `find_total_amount`. -/
def amtLines (text : String) : List (List Char) :=
  (splitLines text.data).filterMap fun l =>
    if (stripL l).isEmpty then none else some (rstripL l)

/-- Embedding of `find_total_amount` of the source. -/
def find_total_amount (text : String) : Option String :=
  let lines := amtLines text
  let r :=
    match amtTier1 lines with
    | some v => some v
    | none =>
      match amtTier2 [] lines with
      | some v => some v
      | none => amtTier4 text.data lines
  r.map String.mk

end Assignment


namespace Assignment

/-! ## Extraction Orchestrator: `parse_text_to_structure` -/

structure StructuredRecord where
  patient_name : String
  patient_age : Option Int
  member_name : String
  diagnoses : List String
  medications : List Med
  procedures : List String
  admission : AdmissionInfo
  total_amount : Option String
deriving Repr, DecidableEq

/-- Embedding of `parse_text_to_structure` of the source, with `date.today()` (used
only by the DOB fallback of `find_age`) passed explicitly. -/
def parse_text_to_structure (today : PyDate) (text : String) :
    StructuredRecord :=
  let patient_name := find_patient_name text
  let member_name := find_member_name text patient_name
  let age := find_age today text
  let diagnoses := find_diagnoses text
  let medications := find_medications text
  let procedures := find_procedures text
  let admission := find_admission text
  let total_amount := find_total_amount text
  { patient_name := patient_name.getD ""
    patient_age := age
    member_name := member_name.getD ""
    diagnoses := diagnoses
    medications := medications
    procedures := procedures
    admission := admission
    total_amount := total_amount }

/-! ## JSON shape of the output mapping -/

inductive Json where
  | null : Json
  | str : String → Json
  | int : Int → Json
  | bool : Bool → Json
  | arr : List Json → Json
  | obj : List (String × Json) → Json
deriving Repr

def optStrJson : Option String → Json
  | none => Json.null
  | some s => Json.str s

def optIntJson : Option Int → Json
  | none => Json.null
  | some n => Json.int n

def medJson (m : Med) : Json :=
  Json.obj [("name", Json.str m.name), ("dosage", Json.str m.dosage),
            ("quantity", Json.str m.quantity)]

def admissionJson (a : AdmissionInfo) : Json :=
  Json.obj [("was_admitted", Json.bool a.was_admitted),
            ("admission_date", optStrJson a.admission_date),
            ("discharge_date", optStrJson a.discharge_date)]

/-- The nested mapping returned by `parse_text_to_structure`, rendered
with the exact key set of the source's dict literal. -/
def recordJson (r : StructuredRecord) : Json :=
  Json.obj
    [("patient", Json.obj [("name", Json.str r.patient_name),
                           ("age", optIntJson r.patient_age)]),
     ("member_name", Json.str r.member_name),
     ("diagnoses", Json.arr (r.diagnoses.map Json.str)),
     ("medications", Json.arr (r.medications.map medJson)),
     ("procedures", Json.arr (r.procedures.map Json.str)),
     ("admission", admissionJson r.admission),
     ("total_amount", optStrJson r.total_amount)]

def objKeys : Json → List String
  | Json.obj kvs => kvs.map Prod.fst
  | _ => []

end Assignment


namespace Assignment

/-- The amended token shape: a capital letter followed by lower-case
letters, apostrophes, or hyphens in any position. -/
def amendedTok : List Char → Bool
  | [] => false
  | c :: cs =>
    isUpperC c && cs.all (fun d => isLowerC d || d = quoteC || d = '-')

/-- The token shape as the claim words it: hyphen/apostrophe only
internal, so the token also ends in a letter. -/
def strictTok : List Char → Bool
  | [] => false
  | c :: cs =>
    isUpperC c && cs.all (fun d => isLowerC d || d = quoteC || d = '-') &&
      isLetterC ((c :: cs).getLast!)

def nameOkAmendedL (n : List Char) : Bool :=
  match splitWS n with
  | [a, b] => amendedTok a && amendedTok b
  | _ => false

/-- PersonName invariant, amended form, over the packaged string. -/
def nameOkAmended (n : String) : Bool := nameOkAmendedL n.data

def nameOkStrictL (n : List Char) : Bool :=
  match splitWS n with
  | [a, b] => strictTok a && strictTok b
  | _ => false

/-- PersonName invariant exactly as claimed (internal-only
hyphen/apostrophe), over the packaged string. -/
def nameOkStrict (n : String) : Bool := nameOkStrictL n.data

/-! ## Concrete scenario inputs -/

/-- The spec's single-document scenario input (claim C1). -/
def c1Text : String :=
  "Patient Name: John Doe\nAge: 45\nParacetamol 500mg 10 tablets\nTotal Amount: NGN 5,000"

/-- The admission/discharge scenario input (claim C2). -/
def c2Text : String := "Admitted: 2023-01-05\nDischarged: 2023-01-10"

/-- A document resolving both a patient and a member name (claim C3's
witness input). -/
def c3Text : String := "Patient Name: John Doe\nMember Name: Jane Smith"

/-- A document whose only age evidence is a years-suffixed number on a
line without the word "age" (claim C5). -/
def c5Text : String := "He is 45 years old"

/-- A document whose only numeric token sits on a facility-header line
(claim C6). -/
def c6Text : String := "Ward 5"

/-- The unlabelled-numbers document of claim C7. -/
def c7Text : String := "₦1,200\n₦30,000\n450"

/-- A document whose only age evidence is a DOB line (claim C10). -/
def dobText : String := "DOB: 1990-06-15"

/-! ## Shape lemmas for the Normalizer output -/

theorem char_toNat_inj {a b : Char} (h : a.toNat = b.toNat) : a = b := by
  apply Char.ext
  exact UInt32.ext h

theorem toNat_ofNat_small (n : Nat) (h : n < 55296) :
    (Char.ofNat n).toNat = n := by
  simp [Char.ofNat, Nat.isValidChar, h, Char.ofNatAux, Char.toNat,
    UInt32.toNat, BitVec.toNat_ofNatLt]

theorem upperC_isUpper {c : Char} (h : isLetterC c = true) :
    isUpperC (upperC c) = true := by
  unfold isLetterC isUpperC isLowerC at h
  unfold upperC isUpperC
  split
  next hl =>
    simp only [Bool.and_eq_true, decide_eq_true_eq] at hl ⊢
    rw [toNat_ofNat_small _ (by omega)]
    omega
  next hl =>
    simp only [Bool.or_eq_true, Bool.and_eq_true, decide_eq_true_eq] at h hl ⊢
    omega

theorem lowerC_keeps {d : Char}
    (h : (isLetterC d || d = quoteC || d = '-') = true) :
    (isLowerC (lowerC d) || lowerC d = quoteC || lowerC d = '-') = true := by
  unfold isLetterC isUpperC isLowerC at h
  unfold lowerC isLowerC
  split
  next hl =>
    simp only [Bool.and_eq_true, decide_eq_true_eq] at hl
    simp only [Bool.or_eq_true, Bool.and_eq_true, decide_eq_true_eq]
    refine Or.inl (Or.inl ?_)
    rw [toNat_ofNat_small _ (by omega)]
    omega
  next hl =>
    simp only [Bool.or_eq_true, Bool.and_eq_true, decide_eq_true_eq] at h hl ⊢
    rcases h with ((⟨h1, h2⟩ | ⟨h1, h2⟩) | h) | h
    · omega
    · exact Or.inl (Or.inl ⟨h1, h2⟩)
    · exact Or.inl (Or.inr h)
    · exact Or.inr h


theorem amendedTok_pyCapitalize {a : List Char} (h : alphaTok a = true) :
    amendedTok (pyCapitalize a) = true := by
  match a with
  | [] => simp [alphaTok] at h
  | c :: cs =>
    simp only [alphaTok, Bool.and_eq_true, List.all_eq_true] at h
    simp only [pyCapitalize, amendedTok, Bool.and_eq_true, List.all_eq_true]
    refine ⟨upperC_isUpper h.1, ?_⟩
    intro d hd
    obtain ⟨e, he, rfl⟩ := List.mem_map.mp hd
    exact lowerC_keeps (h.2 e he)

theorem tokC_not_ws {c : Char}
    (h : (isUpperC c || isLowerC c || c = quoteC || c = '-') = true) :
    isWS c = false := by
  unfold isWS
  simp only [Bool.or_eq_false_iff, decide_eq_false_iff_not]
  simp only [Bool.or_eq_true, decide_eq_true_eq] at h
  refine ⟨⟨⟨⟨⟨?_, ?_⟩, ?_⟩, ?_⟩, ?_⟩, ?_⟩ <;>
    · intro e
      subst e
      revert h
      decide

theorem amendedTok_not_ws {t : List Char} (h : amendedTok t = true) :
    ∀ c ∈ t, isWS c = false := by
  match t with
  | [] => simp [amendedTok] at h
  | c :: cs =>
    simp only [amendedTok, Bool.and_eq_true, List.all_eq_true] at h
    intro d hd
    rcases List.mem_cons.mp hd with rfl | hmem
    · exact tokC_not_ws (by simp [h.1])
    · have := h.2 d hmem
      apply tokC_not_ws
      simp only [Bool.or_eq_true] at this ⊢
      tauto

theorem amendedTok_ne_nil {t : List Char} (h : amendedTok t = true) :
    t ≠ [] := by
  intro e
  subst e
  simp [amendedTok] at h

theorem splitWSAux_nows (B : List Char) (hB : ∀ c ∈ B, isWS c = false) :
    ∀ cur, splitWSAux B cur =
      if (B.reverse ++ cur).isEmpty then [] else [(B.reverse ++ cur).reverse] := by
  induction B with
  | nil =>
    intro cur
    simp [splitWSAux]
  | cons c cs ih =>
    intro cur
    rw [splitWSAux, hB c (List.mem_cons_self c cs)]
    rw [ih (fun d hd => hB d (List.mem_cons_of_mem _ hd)) (c :: cur)]
    simp

theorem splitWSAux_through (A : List Char) (hA : ∀ c ∈ A, isWS c = false)
    (B : List Char) :
    ∀ cur, splitWSAux (A ++ ' ' :: B) cur =
      if (A.reverse ++ cur).isEmpty then splitWSAux B []
      else (A.reverse ++ cur).reverse :: splitWSAux B [] := by
  induction A with
  | nil =>
    intro cur
    rw [List.nil_append, splitWSAux]
    have : isWS ' ' = true := by decide
    rw [this]
    simp
  | cons c cs ih =>
    intro cur
    rw [List.cons_append, splitWSAux, hA c (List.mem_cons_self c cs)]
    rw [ih (fun d hd => hA d (List.mem_cons_of_mem _ hd)) (c :: cur)]
    simp

theorem splitWS_two (A B : List Char) (hA : ∀ c ∈ A, isWS c = false)
    (hB : ∀ c ∈ B, isWS c = false) (hA0 : A ≠ []) (hB0 : B ≠ []) :
    splitWS (A ++ ' ' :: B) = [A, B] := by
  unfold splitWS
  rw [splitWSAux_through A hA B []]
  rw [splitWSAux_nows B hB []]
  simp [hA0, hB0]

theorem filter_eq_cons_head {α : Type} {p : α → Bool} {l : List α} {a : α}
    {t : List α} (h : List.filter p l = a :: t) : p a = true := by
  have ha : a ∈ List.filter p l := by
    rw [h]; exact List.mem_cons_self a t
  exact (List.mem_filter.mp ha).2

theorem filter_eq_cons_snd {α : Type} {p : α → Bool} {l : List α} {a b : α}
    {t : List α} (h : List.filter p l = a :: b :: t) : p b = true := by
  have hb : b ∈ List.filter p l := by
    rw [h]; exact List.mem_cons_of_mem _ (List.mem_cons_self b t)
  exact (List.mem_filter.mp hb).2

theorem clean_shape {c n : List Char}
    (h : clean_and_two_word_name c = some n) :
    ∃ a b, alphaTok a = true ∧ alphaTok b = true ∧
      n = pyCapitalize a ++ ' ' :: pyCapitalize b := by
  simp only [clean_and_two_word_name] at h
  split at h
  · exact absurd h (by simp)
  · split at h
    next a b rest heq =>
      exact ⟨a, b, filter_eq_cons_head heq, filter_eq_cons_snd heq,
        by injection h with h2; rw [← h2]; simp⟩
    next => exact absurd h (by simp)

theorem clean_nameOk {c n : List Char}
    (h : clean_and_two_word_name c = some n) : nameOkAmendedL n = true := by
  obtain ⟨a, b, ha, hb, rfl⟩ := clean_shape h
  have hA := amendedTok_pyCapitalize ha
  have hB := amendedTok_pyCapitalize hb
  unfold nameOkAmendedL
  rw [splitWS_two _ _ (amendedTok_not_ws hA) (amendedTok_not_ws hB)
    (amendedTok_ne_nil hA) (amendedTok_ne_nil hB)]
  simp [hA, hB]

theorem clean_ne_nil {c n : List Char}
    (h : clean_and_two_word_name c = some n) : n ≠ [] := by
  obtain ⟨a, b, _, _, rfl⟩ := clean_shape h
  simp

end Assignment

namespace Assignment

/-! ## Provenance lemmas: every resolved name passed the Normalizer and
the exclusion check -/

theorem find_patient_name_lines_clean {lines : List (List Char)}
    {n : List Char} (h : find_patient_name_lines lines = some n) :
    ∃ c, clean_and_two_word_name c = some n := by
  induction lines with
  | nil => simp [find_patient_name_lines] at h
  | cons line rest ih =>
    simp only [find_patient_name_lines] at h
    split at h
    · exact ih h
    · split at h
      · exact ih h
      · split at h
        · split at h
          next name heq =>
            injection h with h2
            exact ⟨_, by rw [heq, h2]⟩
          next => exact ih h
        · exact ih h

theorem memberTier1_props {ex : Option (List Char)} {lines : List (List Char)}
    {n : List Char} (h : memberTier1 ex lines = some n) :
    exclOk ex n = true ∧ ∃ c, clean_and_two_word_name c = some n := by
  induction lines with
  | nil => simp [memberTier1] at h
  | cons line rest ih =>
    simp only [memberTier1] at h
    split at h
    next n2 heq =>
      injection h with h2
      subst h2
      split at heq
      · exact absurd heq (by simp)
      · split at heq
        · split at heq
          next cS hcand =>
            split at heq
            next nm hclean =>
              split at heq
              next hex =>
                injection heq with h3
                subst h3
                exact ⟨hex, _, hclean⟩
              next => exact absurd heq (by simp)
            next => exact absurd heq (by simp)
          next => exact absurd heq (by simp)
        · exact absurd heq (by simp)
    next => exact ih h

theorem memberTier2_props {ex : Option (List Char)} {lines : List (List Char)}
    {n : List Char} (h : memberTier2 ex lines = some n) :
    exclOk ex n = true ∧ ∃ c, clean_and_two_word_name c = some n := by
  induction lines with
  | nil => simp [memberTier2] at h
  | cons line rest ih =>
    simp only [memberTier2] at h
    split at h
    next n2 heq =>
      injection h with h2
      subst h2
      split at heq
      · exact absurd heq (by simp)
      · split at heq
        · split at heq
          next p hsplit =>
            split at heq
            · exact absurd heq (by simp)
            · split at heq
              next nm hclean =>
                split at heq
                next hex =>
                  injection heq with h3
                  subst h3
                  exact ⟨hex, _, hclean⟩
                next => exact absurd heq (by simp)
              next => exact absurd heq (by simp)
          next => exact absurd heq (by simp)
        · exact absurd heq (by simp)
    next => exact ih h

theorem memberTier3_props {ex : Option (List Char)} {lines : List (List Char)}
    {prev : List Char} {n : List Char}
    (h : memberTier3 ex prev lines = some n) :
    exclOk ex n = true ∧ ∃ c, clean_and_two_word_name c = some n := by
  induction lines generalizing prev with
  | nil => simp [memberTier3] at h
  | cons line rest ih =>
    simp only [memberTier3] at h
    split at h
    next n2 heq =>
      injection h with h2
      subst h2
      split at heq
      · exact absurd heq (by simp)
      · split at heq
        next cand0 hmatch =>
          split at heq
          · split at heq
            next nm hclean =>
              split at heq
              next hex =>
                injection heq with h3
                subst h3
                exact ⟨hex, _, hclean⟩
              next => exact absurd heq (by simp)
            next => exact absurd heq (by simp)
          · exact absurd heq (by simp)
        next => exact absurd heq (by simp)
    next => exact ih h

theorem mem_candInsert {x z : Cand} {l : List Cand}
    (h : z ∈ candInsert x l) : z = x ∨ z ∈ l := by
  induction l with
  | nil => simpa [candInsert] using h
  | cons y ys ih =>
    simp only [candInsert] at h
    split at h
    · rcases List.mem_cons.mp h with h1 | h1
      · exact Or.inl h1
      · exact Or.inr h1
    · rcases List.mem_cons.mp h with h1 | h1
      · exact Or.inr (h1 ▸ List.mem_cons_self _ _)
      · rcases ih h1 with h2 | h2
        · exact Or.inl h2
        · exact Or.inr (List.mem_cons_of_mem _ h2)

theorem mem_candSort {z : Cand} {l : List Cand} (h : z ∈ candSort l) :
    z ∈ l := by
  induction l with
  | nil => simp [candSort] at h
  | cons y ys ih =>
    simp only [candSort] at h
    rcases mem_candInsert h with h1 | h1
    · exact h1 ▸ List.mem_cons_self _ _
    · exact List.mem_cons_of_mem _ (ih h1)

theorem tier4Cands_props {ex : Option (List Char)} {lines : List (List Char)}
    {cd : Cand} (h : cd ∈ memberTier4Cands ex lines) :
    exclOk ex cd.name = true ∧
      ∃ c, clean_and_two_word_name c = some cd.name := by
  unfold memberTier4Cands at h
  obtain ⟨p, _, hp⟩ := List.mem_flatMap.mp h
  split at hp
  · simp at hp
  · obtain ⟨cand, _, hc⟩ := List.mem_filterMap.mp hp
    split at hc
    · exact absurd hc (by simp)
    next cleaned hclean =>
      split at hc
      next => exact absurd hc (by simp)
      next hex =>
        split at hc
        next => exact absurd hc (by simp)
        next =>
          injection hc with h2
          subst h2
          refine ⟨?_, _, hclean⟩
          simp at hex
          exact hex

theorem memberTier4_props {ex : Option (List Char)} {lines : List (List Char)}
    {n : List Char} (h : memberTier4 ex lines = some n) :
    exclOk ex n = true ∧ ∃ c, clean_and_two_word_name c = some n := by
  unfold memberTier4 at h
  obtain ⟨cd, hcd, rfl⟩ : ∃ cd, (candSort (memberTier4Cands ex lines)).head? =
      some cd ∧ cd.name = n := by
    cases hh : (candSort (memberTier4Cands ex lines)).head? with
    | none => rw [hh] at h; exact absurd h (by simp)
    | some cd => rw [hh] at h; exact ⟨cd, rfl, by injection h⟩
  have hmem : cd ∈ candSort (memberTier4Cands ex lines) := by
    cases hl : candSort (memberTier4Cands ex lines) with
    | nil => rw [hl] at hcd; simp at hcd
    | cons a t =>
      rw [hl] at hcd
      injection hcd with h2
      exact h2 ▸ List.mem_cons_self _ _
  exact tier4Cands_props (mem_candSort hmem)

theorem find_member_name_core_props {text : List Char}
    {ex : Option (List Char)} {n : List Char}
    (h : find_member_name_core text ex = some n) :
    exclOk ex n = true ∧ ∃ c, clean_and_two_word_name c = some n := by
  simp only [find_member_name_core] at h
  split at h
  next heq => injection h with h2; exact h2 ▸ memberTier1_props heq
  next =>
    split at h
    next heq => injection h with h2; exact h2 ▸ memberTier2_props heq
    next =>
      split at h
      next heq => injection h with h2; exact h2 ▸ memberTier3_props heq
      next => exact memberTier4_props h

end Assignment

namespace Assignment

/-! ## Deduplication lemmas (medications) -/

theorem dedupMedAux_sublist (seen : List (String × String × String))
    (l : List Med) : (dedupMedAux seen l).Sublist l := by
  induction l generalizing seen with
  | nil => simp [dedupMedAux]
  | cons x xs ih =>
    rw [dedupMedAux]
    split
    · exact (ih seen).cons x
    · exact (ih (medKey x :: seen)).cons₂ x

theorem dedupMedAux_notin {x : Med} {seen : List (String × String × String)}
    {l : List Med} (h : x ∈ dedupMedAux seen l) : medKey x ∉ seen := by
  induction l generalizing seen with
  | nil => simp [dedupMedAux] at h
  | cons y ys ih =>
    rw [dedupMedAux] at h
    split at h
    · exact ih h
    next hns =>
      rcases List.mem_cons.mp h with rfl | hmem
      · exact hns
      · intro hs
        exact ih hmem (List.mem_cons_of_mem _ hs)

theorem dedupMedAux_pairwise (seen : List (String × String × String))
    (l : List Med) :
    (dedupMedAux seen l).Pairwise (fun a b => medKey a ≠ medKey b) := by
  induction l generalizing seen with
  | nil => simp [dedupMedAux]
  | cons x xs ih =>
    rw [dedupMedAux]
    split
    · exact ih seen
    · refine List.Pairwise.cons ?_ (ih (medKey x :: seen))
      intro y hy hxy
      exact dedupMedAux_notin hy (hxy ▸ List.mem_cons_self _ _)

/-! ## Auxiliary none-propagation lemmas -/

theorem firstSomeLines_age_none {ls : List (List Char)}
    (h : (ls.all fun l => !containsWord ["age".data] l) = true) :
    firstSomeLines ageFromLine ls = none := by
  induction ls with
  | nil => rfl
  | cons l t ih =>
    simp only [List.all_cons, Bool.and_eq_true, Bool.not_eq_true'] at h
    rw [firstSomeLines]
    have hage : ageFromLine l = none := by
      unfold ageFromLine
      rw [h.1]
      simp
    rw [hage]
    exact ih h.2


end Assignment

namespace Assignment

/-- C1 (counterexample): on the scenario input
`"Patient Name: John Doe\nAge: 45\nParacetamol 500mg 10 tablets\nTotal Amount: NGN 5,000"`,
the pipeline does NOT produce exactly one medication entry: the
line-scan pass contributes `{Paracetamol, 500mg, "10"}` (its quantity
comes from the bare-integer fallback, without the unit word) and the
pattern pass additionally contributes `{Paracetamol, 500mg, "10
tablets"}`, so the medications list has two entries, refuting the
claimed single entry `{name: "Paracetamol", dosage: "500mg", quantity:
"10 tablets"}`. -/
theorem C1_counterexample :
    (parse_text_to_structure ⟨2026, 10, 12⟩ c1Text).medications.length = 2 ∧
    (parse_text_to_structure ⟨2026, 10, 12⟩ c1Text).medications.head? =
      some ⟨"Paracetamol", "500mg", "10"⟩ := by decide

/-- C1 (amended): on the scenario input the pipeline produces
`patient.name = "John Doe"`, `patient.age = 45` and
`total_amount = "₦5,000"` as claimed, but its medications list holds
two entries — the line-scan entry with quantity `"10"` followed by the
pattern-pass entry with quantity `"10 tablets"` — rather than the
single claimed entry. -/
theorem C1_scenario_amended :
    (parse_text_to_structure ⟨2026, 10, 12⟩ c1Text).patient_name = "John Doe" ∧
    (parse_text_to_structure ⟨2026, 10, 12⟩ c1Text).patient_age = some 45 ∧
    (parse_text_to_structure ⟨2026, 10, 12⟩ c1Text).medications =
      [⟨"Paracetamol", "500mg", "10"⟩,
       ⟨"Paracetamol", "500mg", "10 tablets"⟩] ∧
    (parse_text_to_structure ⟨2026, 10, 12⟩ c1Text).total_amount =
      some "₦5,000" := by decide

/-- C2 (code behaviour at the failing input): on
`"Admitted: 2023-01-05\nDischarged: 2023-01-10"` the extractor sets
`was_admitted` and `admission_date` as claimed, but leaves
`discharge_date` unset: the discharge branch fires only when a single
qualifying line carries two dates (`len(normalized) > 1` indexing
`normalized[1]`), so the lone date of the later "Discharged" line is
never recorded — contradicting both the claim and the source's own
comment "assign first found as admission, second as discharge if
present". -/
theorem C2_admission_code_behaviour :
    find_admission c2Text =
      ⟨true, some "2023-01-05", none⟩ := by decide

/-- C7: with only the unlabelled numeric tokens `₦1,200`, `₦30,000`
and `450` (one per line), the tier-4 largest-value fallback — and hence
`find_total_amount` itself, the first three tiers failing — returns
`"₦30,000"`, the token with the maximum parsed numeric value. -/
theorem C7_largest_value_fallback :
    amtTier4 c7Text.data (amtLines c7Text) = some "₦30,000".data ∧
    find_total_amount c7Text = some "₦30,000" := by decide

/-- C8: for every input text, the medications list is deduplicated by
the identity key (name lower-cased, dosage, quantity) — no two entries
share a key — and it is a sublist of the raw line-scan entries (in line
order) followed by the raw pattern-pass entries, i.e. the two passes'
candidates in order with later occurrences of an already-seen key
dropped. -/
theorem C8_medication_dedup (text : String) :
    (find_medications text).Pairwise (fun a b => medKey a ≠ medKey b) ∧
    (find_medications text).Sublist
      (medLineRaw text.data ++ medPatRaw text.data) :=
  ⟨dedupMedAux_pairwise [] _, dedupMedAux_sublist [] _⟩

end Assignment

namespace Assignment

/-- C3: exclusion invariant.  For every input text, whenever the
patient name resolves and the member-name extractor — called, as in the
orchestrator, with the resolved patient name as exclusion — also
resolves, the member name is not case-insensitively equal to the
patient name: every member-name return path is guarded by the
exclusion check, and a resolved patient name is never empty. -/
theorem C3_member_excludes_patient (text p m : String)
    (hp : find_patient_name text = some p)
    (hm : find_member_name text (find_patient_name text) = some m) :
    lowerL m.data ≠ lowerL p.data := by
  rw [hp] at hm
  unfold find_patient_name at hp
  obtain ⟨np, hnp, hpmk⟩ := Option.map_eq_some'.mp hp
  unfold find_member_name at hm
  obtain ⟨nm, hnm, hmmk⟩ := Option.map_eq_some'.mp hm
  subst hpmk
  subst hmmk
  have hnp0 : np ≠ [] := by
    obtain ⟨c, hc⟩ := find_patient_name_lines_clean hnp
    exact clean_ne_nil hc
  have hexcl : exclOk (some np) nm = true :=
    (find_member_name_core_props hnm).1
  simp only [exclOk, Bool.or_eq_true, decide_eq_true_eq,
    List.isEmpty_eq_true] at hexcl
  rcases hexcl with h0 | hne
  · exact absurd h0 hnp0
  · exact hne

/-- C3 (witness): on a document carrying both a patient label and a
member label the theorem applies, and the two resolved names differ
case-insensitively. -/
theorem C3_member_excludes_patient_witness :
    find_patient_name c3Text = some "John Doe" ∧
    find_member_name c3Text (find_patient_name c3Text) = some "Jane Smith" ∧
    lowerL "Jane Smith".data ≠ lowerL "John Doe".data :=
  ⟨by decide, by decide,
   C3_member_excludes_patient c3Text "John Doe" "Jane Smith"
     (by decide) (by decide)⟩

/-- C4 (counterexample): the name extractors can return a token with a
trailing (non-internal) hyphen: on `"Patient Name: John- Doe"` the
patient extractor returns `"John- Doe"`, whose first token `John-`
ends in a hyphen, refuting the claim that hyphens/apostrophes appear
only internally in alphabetic tokens. -/
theorem C4_counterexample :
    find_patient_name "Patient Name: John- Doe" = some "John- Doe" ∧
    nameOkStrict "John- Doe" = false := by decide

/-- C4 (amended): every non-unset patient-name or member-name output
consists of exactly two tokens, each a capital letter followed by
lower-case letters, hyphens, or apostrophes in any position (the
Normalizer's token filter admits trailing hyphens, which
`str.capitalize` preserves). -/
theorem C4_person_name_shape (text : String) (ex : Option String) (n : String)
    (h : find_patient_name text = some n ∨ find_member_name text ex = some n) :
    nameOkAmended n = true := by
  unfold nameOkAmended
  rcases h with h | h
  · unfold find_patient_name at h
    obtain ⟨nn, hnn, hmk⟩ := Option.map_eq_some'.mp h
    obtain ⟨c, hc⟩ := find_patient_name_lines_clean hnn
    rw [← hmk]
    exact clean_nameOk hc
  · unfold find_member_name at h
    obtain ⟨nn, hnn, hmk⟩ := Option.map_eq_some'.mp h
    obtain ⟨c, hc⟩ := (find_member_name_core_props hnn).2
    rw [← hmk]
    exact clean_nameOk hc

/-- C4 (witness): the amended shape holds for a concretely resolved
patient name. -/
theorem C4_person_name_shape_witness :
    find_patient_name c3Text = some "John Doe" ∧
    nameOkAmended "John Doe" = true :=
  ⟨by decide,
   C4_person_name_shape c3Text none "John Doe" (Or.inl (by decide))⟩

/-- C5 (counterexample): `find_age` does NOT accept an age from a
years-suffixed line lacking the word "age": on `"He is 45 years old"`
the years-suffix pattern itself matches (value 45), yet the extractor
returns `none`, because the per-line loop only examines lines containing
the word "age". -/
theorem C5_counterexample :
    findSomeFrom agePat2At false c5Text.data = some 45 ∧
    find_age ⟨2026, 10, 12⟩ c5Text = none := by decide

/-- C5 (amended): the years/yrs/y-o suffix pattern is consulted only on
lines that also contain the word "age"; on any text none of whose lines
contains the word "age" and with no DOB match, `find_age` returns
`none` regardless of years-suffixed numbers. -/
theorem C5_age_requires_age_word (today : PyDate) (text : String)
    (h1 : ((splitLines text.data).all fun l =>
      !containsWord ["age".data] l) = true)
    (h2 : findSomeFrom dobAt false text.data = none) :
    find_age today text = none := by
  unfold find_age
  rw [firstSomeLines_age_none h1, h2]

/-- C5 (witness): the amended statement applies to the counterexample
document. -/
theorem C5_age_requires_age_word_witness :
    (((splitLines c5Text.data).all fun l =>
      !containsWord ["age".data] l) = true) ∧
    findSomeFrom dobAt false c5Text.data = none ∧
    find_age ⟨2026, 10, 12⟩ c5Text = none :=
  ⟨by decide, by decide,
   C5_age_requires_age_word ⟨2026, 10, 12⟩ c5Text (by decide) (by decide)⟩

/-- C6 (counterexample): `find_total_amount` can return `none` on a
document that does contain a numeric token: in `"Ward 5"` the token
`5` parses, but the line is a facility-header line, which every tier
skips, so the extractor returns `none` — refuting "returns unset only
if no numeric/currency token exists anywhere in the document". -/
theorem C6_counterexample :
    find_total_amount c6Text = none ∧
    (scanAll amountCaptureAt c6Text.data).any
      (fun tok => (parse_number (stripL tok)).isSome) = true := by decide

/-- C6 (amended): `find_total_amount` returns a value whenever some
parsable currency/number token occurs on a non-facility-header
(non-blank) line — tier 4 collects exactly those tokens, and each
earlier tier only ever returns a value. -/
theorem C6_amount_none_only_if_no_token (text : String)
    (h : amtCandidates (amtLines text) ≠ []) :
    find_total_amount text ≠ none := by
  simp only [find_total_amount]
  cases h1 : amtTier1 (amtLines text) with
  | some v => simp
  | none =>
    cases h2 : amtTier2 [] (amtLines text) with
    | some v => simp
    | none =>
      have h4 : amtTier4 text.data (amtLines text) ≠ none := by
        unfold amtTier4
        cases hc : amtCandidates (amtLines text) with
        | nil => exact absurd hc h
        | cons x xs =>
          rw [pickMaxCand]
          split
          next => split <;> simp
          next heq => exact absurd heq (by simp)
      cases h4c : amtTier4 text.data (amtLines text) with
      | none => exact absurd h4c h4
      | some v => simp

/-- C6 (witness): on the one-token document `"450"` the candidate list
is non-empty and the extractor indeed resolves. -/
theorem C6_amount_none_only_if_no_token_witness :
    amtCandidates (amtLines "450") ≠ [] ∧
    find_total_amount "450" ≠ none :=
  ⟨by decide, C6_amount_none_only_if_no_token "450" (by decide)⟩

/-- C9: for every current date and every input text the orchestrator
returns a complete mapping: the rendered record carries exactly the
seven top-level keys, the admission object its three keys, and an
unresolved extractor surfaces as the empty-string / null sentinel of
its field rather than a missing key.  (Termination without exceptions
is intrinsic to the embedding: the fallible operations — `strptime`,
`float` — are `Option`-valued with the source's handlers modelled as
fallthroughs, and every extractor is total.) -/
theorem C9_complete_record (today : PyDate) (text : String) :
    objKeys (recordJson (parse_text_to_structure today text)) =
      ["patient", "member_name", "diagnoses", "medications", "procedures",
       "admission", "total_amount"] ∧
    objKeys (admissionJson (parse_text_to_structure today text).admission) =
      ["was_admitted", "admission_date", "discharge_date"] ∧
    (find_patient_name text = none →
      (parse_text_to_structure today text).patient_name = "") ∧
    (find_member_name text (find_patient_name text) = none →
      (parse_text_to_structure today text).member_name = "") ∧
    (find_age today text = none →
      (parse_text_to_structure today text).patient_age = none) ∧
    (find_total_amount text = none →
      (parse_text_to_structure today text).total_amount = none) := by
  refine ⟨rfl, rfl, ?_, ?_, ?_, ?_⟩ <;>
    · intro h
      simp [parse_text_to_structure, h]

/-- C9 (witness): on the empty document every sentinel default is
realised. -/
theorem C9_complete_record_witness :
    (parse_text_to_structure ⟨2026, 10, 12⟩ "").patient_name = "" ∧
    objKeys (recordJson (parse_text_to_structure ⟨2026, 10, 12⟩ "")) =
      ["patient", "member_name", "diagnoses", "medications", "procedures",
       "admission", "total_amount"] :=
  ⟨(C9_complete_record ⟨2026, 10, 12⟩ "").2.2.1 (by decide),
   (C9_complete_record ⟨2026, 10, 12⟩ "").1⟩

/-- C10 (counterexample): the pipeline is NOT a function of the text
alone: on `"DOB: 1990-06-15"` the DOB fallback of `find_age` reads the
current date, so two runs under different dates yield different
records (ages 36 and 34). -/
theorem C10_counterexample :
    (parse_text_to_structure ⟨2026, 10, 12⟩ dobText).patient_age = some 36 ∧
    (parse_text_to_structure ⟨2025, 1, 1⟩ dobText).patient_age = some 34 ∧
    parse_text_to_structure ⟨2026, 10, 12⟩ dobText ≠
      parse_text_to_structure ⟨2025, 1, 1⟩ dobText := by decide

/-- C10 (amended): the pipeline is a pure function of the text and the
current date, and the date matters only through `find_age`'s DOB
fallback: whenever the text has no DOB match, any two runs under any
two dates yield identical records. -/
theorem C10_date_independent_without_dob (d1 d2 : PyDate) (text : String)
    (h : findSomeFrom dobAt false text.data = none) :
    parse_text_to_structure d1 text = parse_text_to_structure d2 text := by
  have hage : find_age d1 text = find_age d2 text := by
    unfold find_age
    cases h1 : firstSomeLines ageFromLine (splitLines text.data) <;>
      simp [h, h1]
  simp only [parse_text_to_structure]
  rw [hage]

/-- C10 (witness): two runs under distinct dates coincide on a
DOB-free document. -/
theorem C10_date_independent_without_dob_witness :
    findSomeFrom dobAt false "Age: 45".data = none ∧
    parse_text_to_structure ⟨2020, 1, 1⟩ "Age: 45" =
      parse_text_to_structure ⟨2030, 5, 5⟩ "Age: 45" :=
  ⟨by decide,
   C10_date_independent_without_dob ⟨2020, 1, 1⟩ ⟨2030, 5, 5⟩ "Age: 45"
     (by decide)⟩

end Assignment
